import Mathlib

/-!
Verification development for the Draw-and-Guess server core.

The definitions below are a shallow embedding of the repository's
server-side room/round logic (`src/server/game/__init__.py`), the message
codec (`src/shared/protocols.py`) and the line framing loop of the network
server (`src/server/network/__init__.py`).  Python dicts are embedded as
ordered association lists, wall-clock timestamps are passed explicitly as
rationals, and the two sources of randomness (`random.shuffle` in
`_rebuild_drawer_cycle` and `random.choice` in `_pick_word`) are passed in
as explicit oracle arguments.
-/

set_option autoImplicit false

namespace DrawGuess

/-! ### Python dicts as ordered association lists

CPython dicts preserve insertion order: assignment to an existing key
updates the value in place, assignment to a fresh key appends, deletion
removes the key.  Keys of a real dict are unique, so erasing by filtering
every matching entry and modifying every matching entry agree with the
single-entry semantics on all states the program can build. -/

namespace Dict

variable {α : Type}

/-- `d[k]` lookup (first matching entry). -/
def lookup (k : String) : List (String × α) → Option α
  | [] => none
  | (k', v) :: rest => if k' = k then some v else lookup k rest

/-- `k in d`. -/
def contains (k : String) (l : List (String × α)) : Bool :=
  (lookup k l).isSome

/-- `d[k] = v`: replace in place when the key is present, append otherwise. -/
def insert (k : String) (v : α) : List (String × α) → List (String × α)
  | [] => [(k, v)]
  | (k', v') :: rest => if k' = k then (k, v) :: rest else (k', v') :: insert k v rest

/-- `del d[k]` (callers check membership first). -/
def erase (k : String) : List (String × α) → List (String × α)
  | [] => []
  | (k', v) :: rest => if k' = k then erase k rest else (k', v) :: erase k rest

/-- In-place mutation of the value stored at key `k` (e.g. `d[k].score += n`). -/
def modify (k : String) (f : α → α) : List (String × α) → List (String × α)
  | [] => []
  | (k', v) :: rest =>
    if k' = k then (k', f v) :: modify k f rest else (k', v) :: modify k f rest

/-- `list(d.keys())`. -/
def keys (l : List (String × α)) : List String :=
  l.map Prod.fst

end Dict

/-! ### Shared constants

`src/shared/constants.py` is not present under `src/`; the values below are
the constants the game module imports from it. -/

/-- Modelled from the spec: `MAX_PLAYERS` from the missing
`src/shared/constants.py`; the spec's configuration surface fixes a maximum
player count per room, and the sibling `Room` model defaults it to 8. -/
def MAX_PLAYERS : Nat := 8

/-- Modelled from the spec: `MIN_PLAYERS` from the missing
`src/shared/constants.py`; the spec's concrete scenario states
`MIN_PLAYERS = 2`. -/
def MIN_PLAYERS : Nat := 2

/-- Modelled from the spec: `DRAW_TIME` (the round duration in seconds) from
the missing `src/shared/constants.py`; the spec's scoring scenario uses a
60-second round.  For this value the Python float thresholds
`DRAW_TIME * 0.7` and `DRAW_TIME * 0.4` are exactly 42.0 and 24.0, so the
exact rational comparisons below are faithful to the float comparisons in
`_score_for_first_solver`. -/
def DRAW_TIME : Nat := 60

/-! ### Room/round state (`src/server/game/__init__.py`) -/

/-- `PlayerState` dataclass. -/
structure PlayerState where
  player_id : String
  name : String
  score : Int
  is_connected : Bool
deriving DecidableEq

/-- `RoundState` dataclass.  The wall clock is an explicit argument wherever
the Python code calls `time.time()`; timestamps are modelled at whole-second
resolution (the spec states all timing in whole seconds, and `time_left`
truncates to whole seconds anyway). -/
structure RoundState where
  round_index : Nat
  drawer_id : Option String
  word : Option String
  start_ts : Option ℤ
  guesses : List (String × String)
  solved_by : Option String
  is_active : Bool
deriving DecidableEq

/-- Python truthiness of an `Optional[str]`: `None` and `""` are falsy. -/
def truthyOptStr : Option String → Bool
  | none => false
  | some s => !(s == "")

/-- `RoundState.time_left`: `max(0, int(deadline - now))`.  On whole-second
timestamps the `int` truncation is the identity and `max 0` is `Int.toNat`. -/
def RoundState.time_left (r : RoundState) (now : ℤ) : Nat :=
  if !r.is_active then 0
  else
    match r.start_ts with
    | none => 0
    | some ts => (ts + (DRAW_TIME : ℤ) - now).toNat

/-- `GameState` dataclass. -/
structure GameState where
  players : List (String × PlayerState)
  current_round : RoundState
  is_started : Bool
  rounds_played : Nat
deriving DecidableEq

/-- `GameRoom`: the word list `_words` is whatever `_load_words` produced,
and `_drawer_cycle` is the shuffled rotation queue. -/
structure GameRoom where
  room_id : String
  state : GameState
  words : List String
  drawer_cycle : List String
deriving DecidableEq

/-- `GameRoom._force_end_round`: marks the round inactive and resets
`solved_by`.  Note that it does not touch `drawer_id`. -/
def force_end_round (rnd : RoundState) : RoundState :=
  { rnd with is_active := false, solved_by := none }

/-- `GameRoom._normalize`: `(text or "").strip().lower()`, restricted to the
ASCII fragment (Lean's `trim`/`toLower` cover the ASCII whitespace and case
rules used by the spec's examples). -/
def normalize (s : String) : String :=
  s.trim.toLower

/-- `GameRoom._score_for_first_solver`: the thresholds are the exact values
of the float products `DRAW_TIME * 0.7` and `DRAW_TIME * 0.4`. -/
def score_for_first_solver (rnd : RoundState) (now : ℤ) : Int :=
  let left := rnd.time_left now
  if (DRAW_TIME : ℚ) * (7 / 10) ≤ (left : ℚ) then 10
  else if (DRAW_TIME : ℚ) * (2 / 5) ≤ (left : ℚ) then 7
  else if 0 < left then 5
  else 3

/-- `GameRoom.add_player`.  `shuffle` is the `random.shuffle` oracle used by
`_rebuild_drawer_cycle` (an arbitrary reordering of the key list). -/
def add_player (room : GameRoom) (shuffle : List String → List String)
    (player_id name : String) : GameRoom × Bool :=
  if Dict.contains player_id room.state.players then (room, false)
  else if MAX_PLAYERS ≤ room.state.players.length then (room, false)
  else
    let players' := Dict.insert player_id ⟨player_id, name, 0, true⟩ room.state.players
    ({ room with
        state := { room.state with players := players' },
        drawer_cycle := shuffle (Dict.keys players') }, true)

/-- `GameRoom.remove_player`. -/
def remove_player (room : GameRoom) (shuffle : List String → List String)
    (player_id : String) : GameRoom :=
  if Dict.contains player_id room.state.players then
    let players' := Dict.erase player_id room.state.players
    let room' : GameRoom :=
      { room with
          state := { room.state with players := players' },
          drawer_cycle := shuffle (Dict.keys players') }
    if room'.state.current_round.drawer_id = some player_id then
      { room' with
          state := { room'.state with
              current_round := force_end_round room'.state.current_round } }
    else room'
  else room

/-- `GameRoom.start_round`.  `pick` is the value of
`random.choice(self._words)` (`None` when the list is empty); `now` is the
value of `time.time()`. -/
def start_round (room : GameRoom) (shuffle : List String → List String)
    (pick : Option String) (now : ℤ) : GameRoom × Bool :=
  if !room.state.is_started then (room, false)
  else
    let cycle :=
      if room.drawer_cycle.isEmpty then shuffle (Dict.keys room.state.players)
      else room.drawer_cycle
    let next : Option String × List String :=
      match cycle with
      | [] => (none, [])
      | p :: rest => (some p, rest ++ [p])
    let rnd : RoundState :=
      { round_index := room.state.rounds_played + 1
        drawer_id := next.1
        word := pick
        start_ts := some now
        guesses := []
        solved_by := none
        is_active := true }
    ({ room with
        state := { room.state with current_round := rnd },
        drawer_cycle := next.2 }, true)

/-- `GameRoom.start_game`. -/
def start_game (room : GameRoom) (shuffle : List String → List String)
    (pick : Option String) (now : ℤ) : GameRoom × Bool :=
  if room.state.is_started then (room, false)
  else if room.state.players.length < MIN_PLAYERS then (room, false)
  else
    start_round
      { room with state := { room.state with is_started := true, rounds_played := 0 } }
      shuffle pick now

/-- `GameRoom.submit_guess`, returning the new room and the
`(correct, gained)` pair.  `gained // 2` is written with `/` on `Int`; both
operands are non-negative, where Python's floor division and Lean's integer
division agree. -/
def submit_guess (room : GameRoom) (player_id guess_text : String) (now : ℤ) :
    GameRoom × Bool × Int :=
  let rnd := room.state.current_round
  if !rnd.is_active then (room, false, 0)
  else if rnd.drawer_id = some player_id then (room, false, 0)
  else if !Dict.contains player_id room.state.players then (room, false, 0)
  else if truthyOptStr rnd.solved_by then (room, false, 0)
  else
    let guesses' := Dict.insert player_id guess_text rnd.guesses
    if normalize guess_text = normalize (rnd.word.getD "") then
      let rnd' : RoundState := { rnd with guesses := guesses', solved_by := some player_id }
      let gained : Int := score_for_first_solver rnd' now
      let players' :=
        Dict.modify player_id (fun p => { p with score := p.score + gained })
          room.state.players
      let players'' :=
        match rnd.drawer_id with
        | some d =>
          if !(d == "") && Dict.contains d players' then
            Dict.modify d (fun p => { p with score := p.score + gained / 2 }) players'
          else players'
        | none => players'
      let rnd'' : RoundState := { rnd' with is_active := false }
      ({ room with
          state := { room.state with players := players'', current_round := rnd'' } },
        true, gained)
    else
      ({ room with
          state := { room.state with current_round := { rnd with guesses := guesses' } } },
        false, 0)

/-- `GameRoom.next_round`. -/
def next_round (room : GameRoom) (shuffle : List String → List String)
    (pick : Option String) (now : ℤ) : GameRoom × Bool :=
  if !room.state.is_started then (room, false)
  else
    start_round
      { room with
          state := { room.state with rounds_played := room.state.rounds_played + 1 } }
      shuffle pick now

/-- `GameRoom.end_game`. -/
def end_game (room : GameRoom) : GameRoom :=
  { room with
      state := { room.state with
          is_started := false,
          current_round := force_end_round room.state.current_round } }

/-- The dictionary returned by `GameRoom.get_public_state`: its keys are
exactly `room_id`, `is_started`, `round_index`, `drawer_id`, `time_left`,
`players` (id mapped to name and score) and `solved`. -/
structure PublicState where
  room_id : String
  is_started : Bool
  round_index : Nat
  drawer_id : Option String
  time_left : Nat
  players : List (String × String × Int)
  solved : Bool
deriving DecidableEq

/-- `GameRoom.get_public_state` (`now` is the `time.time()` value consulted
by `r.time_left()`). -/
def get_public_state (room : GameRoom) (now : ℤ) : PublicState :=
  { room_id := room.room_id
    is_started := room.state.is_started
    round_index := room.state.current_round.round_index
    drawer_id := room.state.current_round.drawer_id
    time_left := room.state.current_round.time_left now
    players := room.state.players.map (fun e => (e.1, e.2.name, e.2.score))
    solved := truthyOptStr room.state.current_round.solved_by }

/-! ### Message codec (`src/shared/protocols.py`)

The codec is modelled at the level of parsed JSON values: `json.dumps` and
`json.loads` form the standard bijection between a JSON tree and its
serialized line, so `to_json`/`from_json` are embedded as functions on
trees.  `Json.num` is restricted to integers (no float appears in any
protocol message of this repository). -/

inductive Json where
  | null
  | bool (b : Bool)
  | num (n : Int)
  | str (s : String)
  | arr (elems : List Json)
  | obj (entries : List (String × Json))

/-- Python truthiness of a decoded JSON value (`data or` in the `Message`
constructor): `None`, `False`, `0`, `""`, `[]` and an empty object are
falsy. -/
def Json.isTruthy : Json → Bool
  | .null => false
  | .bool b => b
  | .num n => !(n == 0)
  | .str s => !(s == "")
  | .arr elems => !elems.isEmpty
  | .obj entries => !entries.isEmpty

/-- The `Message` envelope.  Python never checks the runtime type of
`self.type`, so both fields are arbitrary JSON values. -/
structure Message where
  type : Json
  data : Json

/-- The `Message.__init__` constructor: `self.data = data or` the empty
dict, with `none` standing for the default argument `None`. -/
def Message.mkPy (msg_type : Json) (data : Option Json) : Message :=
  { type := msg_type
    data :=
      match data with
      | some d => if d.isTruthy then d else Json.obj []
      | none => Json.obj [] }

/-- `Message.to_json`: the tree passed to `json.dumps`. -/
def Message.to_json (m : Message) : Json :=
  Json.obj [("type", m.type), ("data", m.data)]

/-- The exception kinds `Message.from_json` can raise: `json.loads` failure,
subscripting a non-object, and a missing `type` key.  (The repository
defines no `ProtocolError`.) -/
inductive PyError where
  | jsonDecodeError
  | typeError
  | keyError
deriving DecidableEq

/-- `Message.from_json` applied to an already-parsed JSON value:
`obj["type"]` raises `TypeError` on a non-object and `KeyError` when the key
is absent; `obj.get("data", ...)` then feeds the constructor. -/
def Message.from_json : Json → Except PyError Message
  | .obj entries =>
    match Dict.lookup "type" entries with
    | some t => .ok (Message.mkPy t (Dict.lookup "data" entries))
    | none => .error .keyError
  | _ => .error .typeError

/-- One decoded line: `none` stands for bytes that `json.loads` rejects
(which raises `json.JSONDecodeError`). -/
def decodeLine : Option Json → Except PyError Message
  | none => .error .jsonDecodeError
  | some j => Message.from_json j

/-! ### Line framing (`NetworkServer._session_loop`)

The read loop appends each received chunk to the session buffer and then
repeatedly splits off everything before the first `\n` as one frame.  The
byte stream is modelled as a list of characters ( `\n` is a one-byte UTF-8
sequence that never occurs inside another character's encoding, so
splitting characters and splitting bytes agree). -/

/-- Extract every complete frame from a buffer: the frames before each
newline, in order, and the trailing partial frame that stays buffered. -/
def splitFrames : List Char → List (List Char) × List Char
  | [] => ([], [])
  | c :: rest =>
    let r := splitFrames rest
    if c = '\n' then ([] :: r.1, r.2)
    else
      match r.1 with
      | f :: fs => ((c :: f) :: fs, r.2)
      | [] => ([], c :: r.2)

/-- The session loop over a sequence of `recv` chunks: each chunk is
appended to the carried buffer, complete frames are handed off, the rest
stays buffered. -/
def feedChunks (buf : List Char) : List (List Char) → List (List Char) × List Char
  | [] => ([], buf)
  | chunk :: chunks =>
    let r := splitFrames (buf ++ chunk)
    let rest := feedChunks r.2 chunks
    (r.1 ++ rest.1, rest.2)

/-! ### Derived definitions used by the statements below -/

/-- The trace of `n` consecutive `start_round` calls: for each call, the
resulting round's `drawer_id` and the call's return value.  `picks` and
`times` supply the per-call word and clock oracles. -/
def startRounds (room : GameRoom) (shuffle : List String → List String)
    (picks : Nat → Option String) (times : Nat → ℤ) : Nat → List (Option String × Bool)
  | 0 => []
  | Nat.succ n =>
    let r := start_round room shuffle (picks 0) (times 0)
    (r.1.state.current_round.drawer_id, r.2) ::
      startRounds r.1 shuffle (fun i => picks (i + 1)) (fun i => times (i + 1)) n

/-- Replace only the current round's secret word, leaving every other part
of the room state untouched. -/
def set_round_word (room : GameRoom) (w : Option String) : GameRoom :=
  { room with
      state := { room.state with
          current_round := { room.state.current_round with word := w } } }

/-- Every player id mapped in both dictionaries has a score in the second at
least its score in the first. -/
def score_nondecreasing (pre post : List (String × PlayerState)) : Prop :=
  ∀ pid p q, Dict.lookup pid pre = some p → Dict.lookup pid post = some q →
    p.score ≤ q.score

/-- The decoded inputs on which `Message.from_json` succeeds: a parsed JSON
object with at least a `type` key (of any type).  Stated from the spec's
words for the decode contract, with the spec's extra string-typed-`type`
requirement removed; the theorems below compare it against the embedded
decoder. -/
def wellFormedEnvelope : Option Json → Bool
  | some (Json.obj entries) => (Dict.lookup "type" entries).isSome
  | _ => false

/-- A two-player room with an active round whose drawer is player `"a"`,
used for concrete instantiations. -/
def sampleRoom : GameRoom :=
  { room_id := "default"
    state :=
      { players :=
          [("a", { player_id := "a", name := "Alice", score := 0, is_connected := true }),
           ("b", { player_id := "b", name := "Bob", score := 0, is_connected := true })]
        current_round :=
          { round_index := 1
            drawer_id := some "a"
            word := some "apple"
            start_ts := some 0
            guesses := []
            solved_by := none
            is_active := true }
        is_started := true
        rounds_played := 0 }
    words := ["apple"]
    drawer_cycle := ["b", "a"] }

/-- A room whose active round's drawer has the empty string as player id
(the code lets such a player join and be rotated in as drawer). -/
def emptyIdDrawerRoom : GameRoom :=
  { room_id := "default"
    state :=
      { players :=
          [("", { player_id := "", name := "Drawer", score := 0, is_connected := true }),
           ("b", { player_id := "b", name := "Bob", score := 0, is_connected := true })]
        current_round :=
          { round_index := 1
            drawer_id := some ""
            word := some "apple"
            start_ts := some 0
            guesses := []
            solved_by := none
            is_active := true }
        is_started := true
        rounds_played := 0 }
    words := ["apple"]
    drawer_cycle := ["b", ""] }

/-- The state of `sampleRoom` after Bob's correct guess `"apple"` at
time 0: Bob scored 10, drawer Alice got the 5-point bonus, the round is
solved and inactive. -/
def sampleRoomSolved : GameRoom :=
  { room_id := "default"
    state :=
      { players :=
          [("a", { player_id := "a", name := "Alice", score := 5, is_connected := true }),
           ("b", { player_id := "b", name := "Bob", score := 10, is_connected := true })]
        current_round :=
          { round_index := 1
            drawer_id := some "a"
            word := some "apple"
            start_ts := some 0
            guesses := [("b", "apple")]
            solved_by := some "b"
            is_active := false }
        is_started := true
        rounds_played := 0 }
    words := ["apple"]
    drawer_cycle := ["b", "a"] }

/-! ### Association-list dictionary lemmas -/

namespace Dict

variable {α : Type}

theorem lookup_insert_self (k : String) (v : α) (l : List (String × α)) :
    lookup k (insert k v l) = some v := by
  induction l with
  | nil => simp [insert, lookup]
  | cons e rest ih =>
    obtain ⟨ek, ev⟩ := e
    by_cases h : ek = k
    · subst h; simp [insert, lookup]
    · simp [insert, lookup, h, ih]

theorem lookup_insert_ne (k k' : String) (v : α) (l : List (String × α)) (h : k' ≠ k) :
    lookup k' (insert k v l) = lookup k' l := by
  have hk : ¬ (k = k') := fun hh => h hh.symm
  induction l with
  | nil => simp [insert, lookup, hk]
  | cons e rest ih =>
    obtain ⟨ek, ev⟩ := e
    by_cases he : ek = k
    · subst he; simp [insert, lookup, hk]
    · simp [insert, lookup, he, ih]

theorem lookup_erase_self (k : String) (l : List (String × α)) :
    lookup k (erase k l) = none := by
  induction l with
  | nil => simp [erase, lookup]
  | cons e rest ih =>
    obtain ⟨ek, ev⟩ := e
    by_cases h : ek = k
    · subst h; simpa [erase] using ih
    · simpa [erase, lookup, h] using ih

theorem lookup_erase_ne (k k' : String) (l : List (String × α)) (h : k' ≠ k) :
    lookup k' (erase k l) = lookup k' l := by
  induction l with
  | nil => simp [erase, lookup]
  | cons e rest ih =>
    obtain ⟨ek, ev⟩ := e
    by_cases he : ek = k
    · subst he
      have : ¬ (ek = k') := fun hh => h hh.symm
      simpa [erase, lookup, this] using ih
    · by_cases he' : ek = k'
      · simp [erase, lookup, he, he', h]
      · simpa [erase, lookup, he, he'] using ih

theorem lookup_modify_self (k : String) (f : α → α) (l : List (String × α)) :
    lookup k (modify k f l) = (lookup k l).map f := by
  induction l with
  | nil => simp [modify, lookup]
  | cons e rest ih =>
    obtain ⟨ek, ev⟩ := e
    by_cases h : ek = k
    · subst h; simp [modify, lookup]
    · simp [modify, lookup, h, ih]

theorem lookup_modify_ne (k k' : String) (f : α → α) (l : List (String × α)) (h : k' ≠ k) :
    lookup k' (modify k f l) = lookup k' l := by
  induction l with
  | nil => simp [modify, lookup]
  | cons e rest ih =>
    obtain ⟨ek, ev⟩ := e
    by_cases he : ek = k
    · subst he
      have : ¬ (ek = k') := fun hh => h hh.symm
      simpa [modify, lookup, this] using ih
    · by_cases he' : ek = k'
      · simp [modify, lookup, he, he', h]
      · simpa [modify, lookup, he, he'] using ih

theorem keys_insert_of_contains (k : String) (v : α) (l : List (String × α))
    (h : contains k l = true) : keys (insert k v l) = keys l := by
  induction l with
  | nil => simp [contains, lookup] at h
  | cons e rest ih =>
    obtain ⟨ek, ev⟩ := e
    by_cases he : ek = k
    · subst he; simp [insert, keys]
    · simp only [contains, lookup, he, if_false] at h ih
      have hih := ih h
      simp only [keys] at hih
      simp [insert, keys, he, hih]

theorem keys_insert_of_not_contains (k : String) (v : α) (l : List (String × α))
    (h : contains k l = false) : keys (insert k v l) = keys l ++ [k] := by
  induction l with
  | nil => simp [insert, keys]
  | cons e rest ih =>
    obtain ⟨ek, ev⟩ := e
    by_cases he : ek = k
    · subst he; simp [contains, lookup] at h
    · simp only [contains, lookup, he, if_false] at h ih
      have hih := ih h
      simp only [keys] at hih
      simp [insert, keys, he, hih]

theorem contains_iff_mem_keys (k : String) (l : List (String × α)) :
    contains k l = true ↔ k ∈ keys l := by
  induction l with
  | nil => simp [contains, lookup, keys]
  | cons e rest ih =>
    obtain ⟨ek, ev⟩ := e
    by_cases he : ek = k
    · subst he; simp [contains, lookup, keys]
    · have hne : ¬ (k = ek) := fun hh => he hh.symm
      simp only [contains, lookup, he, if_false, keys, List.map_cons, List.mem_cons]
      simp only [contains, keys] at ih
      simp [ih, hne]

theorem length_insert_of_not_contains (k : String) (v : α) (l : List (String × α))
    (h : contains k l = false) : (insert k v l).length = l.length + 1 := by
  have := keys_insert_of_not_contains k v l h
  have hlen : (keys (insert k v l)).length = (keys l ++ [k]).length := by rw [this]
  simpa [keys] using hlen

theorem nodup_keys_insert (k : String) (v : α) (l : List (String × α))
    (h : (keys l).Nodup) : (keys (insert k v l)).Nodup := by
  by_cases hc : contains k l = true
  · rwa [keys_insert_of_contains k v l hc]
  · rw [keys_insert_of_not_contains k v l (by simpa using hc)]
    have hk : k ∉ keys l := by
      intro hmem
      exact hc ((contains_iff_mem_keys k l).mpr hmem)
    simp [List.nodup_append, h, hk]

end Dict

/-! ### C5: `add_player` guards and capacity/duplication invariants -/

/-- C5.  `add_player(id, name)` returns false and leaves the player map
unchanged when the id is already present or the room already holds
`MAX_PLAYERS` players; otherwise it appends the new player and returns
true.  Consequently the player count never exceeds `MAX_PLAYERS` and the
key list stays duplicate-free. -/
theorem add_player_spec (room : GameRoom) (shuffle : List String → List String)
    (pid name : String) :
    (Dict.contains pid room.state.players = true ∨
        MAX_PLAYERS ≤ room.state.players.length →
      add_player room shuffle pid name = (room, false)) ∧
    (Dict.contains pid room.state.players = false →
      room.state.players.length < MAX_PLAYERS →
      (add_player room shuffle pid name).2 = true ∧
        (add_player room shuffle pid name).1.state.players =
          Dict.insert pid ⟨pid, name, 0, true⟩ room.state.players) ∧
    (room.state.players.length ≤ MAX_PLAYERS →
      (add_player room shuffle pid name).1.state.players.length ≤ MAX_PLAYERS) ∧
    ((Dict.keys room.state.players).Nodup →
      (Dict.keys (add_player room shuffle pid name).1.state.players).Nodup) := by
  refine ⟨?_, ?_, ?_, ?_⟩
  · rintro (h | h)
    · simp [add_player, h]
    · by_cases hc : Dict.contains pid room.state.players = true
      · simp [add_player, hc]
      · simp [add_player, hc, h]
  · intro hc hlen
    simp [add_player, hc, Nat.not_le.mpr hlen]
  · intro hle
    by_cases hc : Dict.contains pid room.state.players = true
    · simpa [add_player, hc] using hle
    · by_cases hfull : MAX_PLAYERS ≤ room.state.players.length
      · simpa [add_player, hc, hfull] using hle
      · have hlt : room.state.players.length < MAX_PLAYERS := Nat.lt_of_not_le hfull
        have hc' : Dict.contains pid room.state.players = false := by
          simpa using hc
        simp [add_player, hc, hfull,
          Dict.length_insert_of_not_contains pid _ _ hc']
        omega
  · intro hnd
    by_cases hc : Dict.contains pid room.state.players = true
    · simp [add_player, hc, hnd]
    · by_cases hfull : MAX_PLAYERS ≤ room.state.players.length
      · simp [add_player, hc, hfull, hnd]
      · simp [add_player, hc, hfull]
        exact Dict.nodup_keys_insert pid _ _ hnd

/-- C5 witness: a fresh third player is appended to the two-player sample
room and the call reports success. -/
theorem add_player_spec_witness :
    Dict.contains "c" sampleRoom.state.players = false ∧
    sampleRoom.state.players.length < MAX_PLAYERS ∧
    ((add_player sampleRoom id "c" "Carl").2 = true ∧
      (add_player sampleRoom id "c" "Carl").1.state.players =
        Dict.insert "c" ⟨"c", "Carl", 0, true⟩ sampleRoom.state.players) :=
  ⟨by decide, by decide,
    (add_player_spec sampleRoom id "c" "Carl").2.1 (by decide) (by decide)⟩

/-! ### C1: removing the active drawer -/

/-- C1 counterexample: in the sample room the active drawer is `"a"` and
`"a"` is a member, yet after `remove_player("a")` the round's `drawer_id`
is still `some "a"` — `_force_end_round` never clears it, so the claimed
clearing of `drawer_id` fails. -/
theorem remove_player_drawer_counterexample :
    sampleRoom.state.current_round.drawer_id = some "a" ∧
    Dict.contains "a" sampleRoom.state.players = true ∧
    (remove_player sampleRoom id "a").state.current_round.drawer_id ≠ none ∧
    (remove_player sampleRoom id "a").state.current_round.drawer_id = some "a" := by
  refine ⟨rfl, by decide, ?_, by decide⟩
  intro h
  have h' : (remove_player sampleRoom id "a").state.current_round.drawer_id
      = some "a" := by decide
  rw [h'] at h
  cases h

/-- C1 amended: removing the player who is the current drawer deletes the
player, rebuilds the rotation from the remaining ids, marks the round
inactive and resets `solved_by`, but leaves `drawer_id` still set to the
removed id (the reference is left dangling rather than cleared). -/
theorem remove_player_drawer_amended (room : GameRoom)
    (shuffle : List String → List String) (pid : String)
    (hmem : Dict.contains pid room.state.players = true)
    (hdrawer : room.state.current_round.drawer_id = some pid) :
    Dict.lookup pid (remove_player room shuffle pid).state.players = none ∧
    (remove_player room shuffle pid).state.players =
      Dict.erase pid room.state.players ∧
    (remove_player room shuffle pid).drawer_cycle =
      shuffle (Dict.keys (Dict.erase pid room.state.players)) ∧
    (remove_player room shuffle pid).state.current_round.is_active = false ∧
    (remove_player room shuffle pid).state.current_round.solved_by = none ∧
    (remove_player room shuffle pid).state.current_round.drawer_id = some pid := by
  simp [remove_player, hmem, hdrawer, force_end_round, Dict.lookup_erase_self]

/-- C1 amended witness: the concrete removal of drawer `"a"` from the
sample room. -/
theorem remove_player_drawer_amended_witness :
    Dict.lookup "a" (remove_player sampleRoom id "a").state.players = none ∧
    (remove_player sampleRoom id "a").state.players =
      Dict.erase "a" sampleRoom.state.players ∧
    (remove_player sampleRoom id "a").drawer_cycle =
      id (Dict.keys (Dict.erase "a" sampleRoom.state.players)) ∧
    (remove_player sampleRoom id "a").state.current_round.is_active = false ∧
    (remove_player sampleRoom id "a").state.current_round.solved_by = none ∧
    (remove_player sampleRoom id "a").state.current_round.drawer_id = some "a" :=
  remove_player_drawer_amended sampleRoom id "a" (by decide) (by decide)

/-- Helper: the scoring tiers written over the integer seconds remaining
(`DRAW_TIME * 0.7 = 42` and `DRAW_TIME * 0.4 = 24` exactly). -/
theorem score_for_first_solver_eq (rnd : RoundState) (now : ℤ) :
    score_for_first_solver rnd now =
      if 42 ≤ rnd.time_left now then 10
      else if 24 ≤ rnd.time_left now then 7
      else if 0 < rnd.time_left now then 5
      else 3 := by
  unfold score_for_first_solver
  have h1 : ((DRAW_TIME : ℚ) * (7 / 10) ≤ (rnd.time_left now : ℚ)) ↔
      42 ≤ rnd.time_left now := by
    rw [show (DRAW_TIME : ℚ) * (7 / 10) = ((42 : ℕ) : ℚ) by norm_num [DRAW_TIME]]
    exact Nat.cast_le
  have h2 : ((DRAW_TIME : ℚ) * (2 / 5) ≤ (rnd.time_left now : ℚ)) ↔
      24 ≤ rnd.time_left now := by
    rw [show (DRAW_TIME : ℚ) * (2 / 5) = ((24 : ℕ) : ℚ) by norm_num [DRAW_TIME]]
    exact Nat.cast_le
  simp only [h1, h2]

/-- Helper: the accepted-guess branch of `submit_guess`, written out.  The
four guards are false and the normalized guess matches the word. -/
theorem submit_guess_accepted (room : GameRoom) (pid text : String) (now : ℤ)
    (hact : room.state.current_round.is_active = true)
    (hdr : room.state.current_round.drawer_id ≠ some pid)
    (hmem : Dict.contains pid room.state.players = true)
    (hsol : truthyOptStr room.state.current_round.solved_by = false)
    (hmatch : normalize text = normalize (room.state.current_round.word.getD "")) :
    submit_guess room pid text now =
      (let rnd := room.state.current_round
      let rnd' : RoundState :=
        { rnd with guesses := Dict.insert pid text rnd.guesses, solved_by := some pid }
      let gained : Int := score_for_first_solver rnd' now
      let players' :=
        Dict.modify pid (fun p => { p with score := p.score + gained })
          room.state.players
      let players'' :=
        match rnd.drawer_id with
        | some d =>
          if !(d == "") && Dict.contains d players' then
            Dict.modify d (fun p => { p with score := p.score + gained / 2 }) players'
          else players'
        | none => players'
      ({ room with
          state := { room.state with
              players := players'',
              current_round := { rnd' with is_active := false } } },
        true, gained)) := by
  simp only [submit_guess]
  rw [if_neg (by simp [hact]), if_neg hdr, if_neg (by simp [hmem]),
    if_neg (by simp [hsol]), if_pos hmatch]

/-- Helper: evaluating Bob's correct guess on the sample room. -/
theorem submit_guess_sample_eq :
    submit_guess sampleRoom "b" "apple" 0 = (sampleRoomSolved, true, 10) := by
  rw [submit_guess_accepted sampleRoom "b" "apple" 0 (by decide) (by decide)
    (by decide) (by decide) rfl]
  simp only [score_for_first_solver_eq]
  decide

/-! ### C2: `submit_guess` rejection paths -/

/-- Helper: a call reporting a correct guess leaves the round inactive. -/
theorem submit_guess_correct_inactive (room : GameRoom) (pid text : String) (now : ℤ)
    (h : (submit_guess room pid text now).2.1 = true) :
    (submit_guess room pid text now).1.state.current_round.is_active = false := by
  simp only [submit_guess] at h ⊢
  split_ifs at h ⊢
  all_goals simp_all

/-- C2.  `submit_guess` returns not-correct with zero score and returns the
room unchanged whenever the round is inactive, the guesser is the current
drawer, the guesser is not a member, or the round already has a (truthy)
`solved_by`; and after any call that accepted a correct guess, every
further guess is rejected and changes nothing. -/
theorem submit_guess_reject_spec :
    (∀ (room : GameRoom) (pid text : String) (now : ℤ),
      (room.state.current_round.is_active = false ∨
          room.state.current_round.drawer_id = some pid ∨
          Dict.contains pid room.state.players = false ∨
          truthyOptStr room.state.current_round.solved_by = true) →
      submit_guess room pid text now = (room, false, 0)) ∧
    (∀ (room room' : GameRoom) (pid text : String) (now : ℤ) (g : Int)
        (pid' text' : String) (now' : ℤ),
      submit_guess room pid text now = (room', true, g) →
      submit_guess room' pid' text' now' = (room', false, 0)) := by
  have reject : ∀ (room : GameRoom) (pid text : String) (now : ℤ),
      (room.state.current_round.is_active = false ∨
          room.state.current_round.drawer_id = some pid ∨
          Dict.contains pid room.state.players = false ∨
          truthyOptStr room.state.current_round.solved_by = true) →
      submit_guess room pid text now = (room, false, 0) := by
    intro room pid text now h
    simp only [submit_guess]
    split_ifs with h1 h2 h3 h4 <;>
      first
        | rfl
        | (exfalso; rcases h with h | h | h | h <;> simp_all)
  refine ⟨reject, ?_⟩
  intro room room' pid text now g pid' text' now' heq
  have hro : room' = (submit_guess room pid text now).1 := by rw [heq]
  have htrue : (submit_guess room pid text now).2.1 = true := by rw [heq]
  have hinact : room'.state.current_round.is_active = false := by
    rw [hro]; exact submit_guess_correct_inactive room pid text now htrue
  exact reject room' pid' text' now' (Or.inl hinact)

/-- C2 witness: the drawer's own guess of the exact word is rejected, and
after Bob's accepted correct guess a further guess changes nothing. -/
theorem submit_guess_reject_spec_witness :
    submit_guess sampleRoom "a" "apple" 0 = (sampleRoom, false, 0) ∧
    submit_guess sampleRoomSolved "b" "apple" 1 = (sampleRoomSolved, false, 0) := by
  constructor
  · exact submit_guess_reject_spec.1 sampleRoom "a" "apple" 0 (Or.inr (Or.inl (by decide)))
  · exact submit_guess_reject_spec.2 sampleRoom sampleRoomSolved "b" "apple" 0 10
      "b" "apple" 1 submit_guess_sample_eq

/-! ### C3: scoring of the first correct guess -/

/-- C3 counterexample: in `emptyIdDrawerRoom` the active round's drawer is
the member with player id `""`.  Bob's guess of the exact word is accepted
with 10 points, but the drawer's score stays 0 instead of increasing by
`10 / 2 = 5`: the bonus guard `if rnd.drawer_id and ...` treats the empty
id as falsy. -/
theorem submit_guess_drawer_bonus_counterexample :
    emptyIdDrawerRoom.state.current_round.drawer_id = some "" ∧
    Dict.contains "" emptyIdDrawerRoom.state.players = true ∧
    Dict.contains "b" emptyIdDrawerRoom.state.players = true ∧
    emptyIdDrawerRoom.state.current_round.time_left 0 = 60 ∧
    (submit_guess emptyIdDrawerRoom "b" "apple" 0).2 = (true, 10) ∧
    Dict.lookup "" (submit_guess emptyIdDrawerRoom "b" "apple" 0).1.state.players =
      some { player_id := "", name := "Drawer", score := 0, is_connected := true } := by
  have heq := submit_guess_accepted emptyIdDrawerRoom "b" "apple" 0 (by decide)
    (by decide) (by decide) (by decide) rfl
  refine ⟨by decide, by decide, by decide, by decide, ?_, ?_⟩ <;>
    rw [heq] <;> simp only [score_for_first_solver_eq] <;> decide

/-- Helper: lookups after the solver bonus and the drawer bonus have been
applied to the player dictionary. -/
theorem bonus_lookups (players : List (String × PlayerState)) (pid d : String)
    (g : Int) (p q : PlayerState) (hdpid : d ≠ pid) (hdne : d ≠ "")
    (hp : Dict.lookup pid players = some p)
    (hq : Dict.lookup d players = some q) :
    Dict.lookup pid
      (if !(d == "") && Dict.contains d
          (Dict.modify pid (fun p => { p with score := p.score + g }) players) then
        Dict.modify d (fun p => { p with score := p.score + g / 2 })
          (Dict.modify pid (fun p => { p with score := p.score + g }) players)
      else Dict.modify pid (fun p => { p with score := p.score + g }) players) =
      some { p with score := p.score + g } ∧
    Dict.lookup d
      (if !(d == "") && Dict.contains d
          (Dict.modify pid (fun p => { p with score := p.score + g }) players) then
        Dict.modify d (fun p => { p with score := p.score + g / 2 })
          (Dict.modify pid (fun p => { p with score := p.score + g }) players)
      else Dict.modify pid (fun p => { p with score := p.score + g }) players) =
      some { q with score := q.score + g / 2 } := by
  have hlookup_d : Dict.lookup d
      (Dict.modify pid (fun p => { p with score := p.score + g }) players) = some q := by
    rw [Dict.lookup_modify_ne pid d _ _ hdpid]; exact hq
  have hcond : (!(d == "") && Dict.contains d
      (Dict.modify pid (fun p => { p with score := p.score + g }) players)) = true := by
    rw [Dict.contains, hlookup_d]
    simp [hdne]
  constructor
  · rw [if_pos hcond, Dict.lookup_modify_ne d pid _ _ (fun hh => hdpid hh.symm),
      Dict.lookup_modify_self, hp]
    rfl
  · rw [if_pos hcond, Dict.lookup_modify_self, hlookup_d]
    rfl

/-- C3 amended: when a member other than the drawer submits, during an
active unsolved round, a guess matching the secret word up to trimming and
lower-casing, the guesser becomes `solved_by`, the round goes inactive, the
guesser gains the tiered amount (10 with at least 42 of the 60 seconds
left, 7 with at least 24, 5 with more than 0, else 3) and the drawer gains
half that amount rounded down — provided the drawer's id is non-empty (an
empty-string drawer id is falsy in the bonus guard and gets nothing). -/
theorem submit_guess_correct_scoring (room : GameRoom) (pid d text w : String)
    (now : ℤ) (p q : PlayerState)
    (hact : room.state.current_round.is_active = true)
    (hdr : room.state.current_round.drawer_id = some d)
    (hdpid : d ≠ pid)
    (hdne : d ≠ "")
    (hsol : room.state.current_round.solved_by = none)
    (hword : room.state.current_round.word = some w)
    (hmatch : normalize text = normalize w)
    (hp : Dict.lookup pid room.state.players = some p)
    (hq : Dict.lookup d room.state.players = some q) :
    (submit_guess room pid text now).2.1 = true ∧
    (submit_guess room pid text now).2.2 =
      score_for_first_solver room.state.current_round now ∧
    (submit_guess room pid text now).1.state.current_round.solved_by = some pid ∧
    (submit_guess room pid text now).1.state.current_round.is_active = false ∧
    Dict.lookup pid (submit_guess room pid text now).1.state.players =
      some { p with
          score := p.score + score_for_first_solver room.state.current_round now } ∧
    Dict.lookup d (submit_guess room pid text now).1.state.players =
      some { q with
          score := q.score + score_for_first_solver room.state.current_round now / 2 } ∧
    score_for_first_solver room.state.current_round now =
      (if 42 ≤ room.state.current_round.time_left now then 10
       else if 24 ≤ room.state.current_round.time_left now then 7
       else if 0 < room.state.current_round.time_left now then 5
       else 3) := by
  have hdrne : room.state.current_round.drawer_id ≠ some pid := by
    rw [hdr]
    intro hcon
    exact hdpid (Option.some.inj hcon)
  have hmem : Dict.contains pid room.state.players = true := by
    rw [Dict.contains, hp]; rfl
  have hsol' : truthyOptStr room.state.current_round.solved_by = false := by
    rw [hsol]; rfl
  have hmatch' : normalize text = normalize (room.state.current_round.word.getD "") := by
    rw [hword]; exact hmatch
  have heq := submit_guess_accepted room pid text now hact hdrne hmem hsol' hmatch'
  rw [heq]
  simp only [hdr]
  refine ⟨by trivial, by trivial, by trivial, by trivial, ?_, ?_,
    score_for_first_solver_eq _ _⟩
  · exact (bonus_lookups room.state.players pid d _ p q hdpid hdne hp hq).1
  · exact (bonus_lookups room.state.players pid d _ p q hdpid hdne hp hq).2

/-- C3 amended witness: Bob guesses `"apple"` at time 0 in the sample room;
he gains 10 (60 seconds remain) and drawer Alice gains 5. -/
theorem submit_guess_correct_scoring_witness :
    (submit_guess sampleRoom "b" "apple" 0).2.1 = true ∧
    (submit_guess sampleRoom "b" "apple" 0).2.2 =
      score_for_first_solver sampleRoom.state.current_round 0 ∧
    (submit_guess sampleRoom "b" "apple" 0).1.state.current_round.solved_by = some "b" ∧
    (submit_guess sampleRoom "b" "apple" 0).1.state.current_round.is_active = false ∧
    Dict.lookup "b" (submit_guess sampleRoom "b" "apple" 0).1.state.players =
      some { player_id := "b", name := "Bob",
             score := (0 : Int) + score_for_first_solver sampleRoom.state.current_round 0,
             is_connected := true } ∧
    Dict.lookup "a" (submit_guess sampleRoom "b" "apple" 0).1.state.players =
      some { player_id := "a", name := "Alice",
             score := (0 : Int) + score_for_first_solver sampleRoom.state.current_round 0 / 2,
             is_connected := true } ∧
    score_for_first_solver sampleRoom.state.current_round 0 =
      (if 42 ≤ sampleRoom.state.current_round.time_left 0 then 10
       else if 24 ≤ sampleRoom.state.current_round.time_left 0 then 7
       else if 0 < sampleRoom.state.current_round.time_left 0 then 5
       else 3) :=
  submit_guess_correct_scoring sampleRoom "b" "a" "apple" "apple" 0
    { player_id := "b", name := "Bob", score := 0, is_connected := true }
    { player_id := "a", name := "Alice", score := 0, is_connected := true }
    rfl rfl (by decide) (by decide) rfl rfl rfl (by decide) (by decide)

/-! ### C10: one recorded guess per player per round -/

/-- C10.  A guess that passes the four guards is recorded by dictionary
assignment: the round's guess record becomes `insert pid text`, so the
guesser's entry holds the latest text, and when the record had no duplicate
keys it still has none and holds exactly one entry for the guesser. -/
theorem submit_guess_guess_record (room : GameRoom) (pid text : String) (now : ℤ)
    (hact : room.state.current_round.is_active = true)
    (hdr : room.state.current_round.drawer_id ≠ some pid)
    (hmem : Dict.contains pid room.state.players = true)
    (hsol : truthyOptStr room.state.current_round.solved_by = false) :
    (submit_guess room pid text now).1.state.current_round.guesses =
      Dict.insert pid text room.state.current_round.guesses ∧
    Dict.lookup pid (submit_guess room pid text now).1.state.current_round.guesses =
      some text ∧
    ((Dict.keys room.state.current_round.guesses).Nodup →
      (Dict.keys (submit_guess room pid text now).1.state.current_round.guesses).Nodup ∧
      List.count pid
        (Dict.keys (submit_guess room pid text now).1.state.current_round.guesses) = 1) := by
  have hg : (submit_guess room pid text now).1.state.current_round.guesses =
      Dict.insert pid text room.state.current_round.guesses := by
    simp only [submit_guess]
    rw [if_neg (by simp [hact]), if_neg hdr, if_neg (by simp [hmem]),
      if_neg (by simp [hsol])]
    split <;> rfl
  refine ⟨hg, ?_, ?_⟩
  · rw [hg, Dict.lookup_insert_self]
  · intro hnd
    have hnd' := Dict.nodup_keys_insert pid text _ hnd
    have hmem' : pid ∈ Dict.keys (Dict.insert pid text room.state.current_round.guesses) := by
      rw [← Dict.contains_iff_mem_keys, Dict.contains, Dict.lookup_insert_self]
      rfl
    rw [hg]
    exact ⟨hnd', List.count_eq_one_of_mem hnd' hmem'⟩

/-- C10 witness: Bob's wrong guess `"pear"` in the sample room replaces
nothing (the record was empty) and leaves a single entry for `"b"`. -/
theorem submit_guess_guess_record_witness :
    (submit_guess sampleRoom "b" "pear" 0).1.state.current_round.guesses =
      Dict.insert "b" "pear" sampleRoom.state.current_round.guesses ∧
    Dict.lookup "b" (submit_guess sampleRoom "b" "pear" 0).1.state.current_round.guesses =
      some "pear" ∧
    ((Dict.keys sampleRoom.state.current_round.guesses).Nodup →
      (Dict.keys (submit_guess sampleRoom "b" "pear" 0).1.state.current_round.guesses).Nodup ∧
      List.count "b"
        (Dict.keys (submit_guess sampleRoom "b" "pear" 0).1.state.current_round.guesses) = 1) :=
  submit_guess_guess_record sampleRoom "b" "pear" 0 (by decide) (by decide)
    (by decide) (by decide)

/-! ### C9: score monotonicity -/

/-- Helper: the tiered score is one of 10, 7, 5, 3, hence non-negative. -/
theorem score_for_first_solver_nonneg (rnd : RoundState) (now : ℤ) :
    0 ≤ score_for_first_solver rnd now := by
  rw [score_for_first_solver_eq]
  split_ifs <;> norm_num

/-- Helper: identical dictionaries never lower a score. -/
theorem score_nondecreasing_refl (l : List (String × PlayerState)) :
    score_nondecreasing l l := by
  intro pid p q hp hq
  rw [hp] at hq
  cases hq
  exact le_refl _

/-- Helper: adding a non-negative amount to one player's score never lowers
any score. -/
theorem score_nondecreasing_modify_add (l : List (String × PlayerState))
    (k : String) (c : Int) (hc : 0 ≤ c) :
    score_nondecreasing l
      (Dict.modify k (fun p => { p with score := p.score + c }) l) := by
  intro pid p q hp hq
  by_cases hk : pid = k
  · subst hk
    rw [Dict.lookup_modify_self, hp] at hq
    cases hq
    exact Int.le_add_of_nonneg_right hc
  · rw [Dict.lookup_modify_ne k pid _ _ hk, hp] at hq
    cases hq
    exact le_refl _

/-- Helper: two successive non-negative score additions never lower any
score. -/
theorem score_nondecreasing_modify_add₂ (l : List (String × PlayerState))
    (k₁ k₂ : String) (c₁ c₂ : Int) (h₁ : 0 ≤ c₁) (h₂ : 0 ≤ c₂) :
    score_nondecreasing l
      (Dict.modify k₂ (fun p => { p with score := p.score + c₂ })
        (Dict.modify k₁ (fun p => { p with score := p.score + c₁ }) l)) := by
  intro pid p q hp hq
  by_cases hk2 : pid = k₂
  · subst hk2
    rw [Dict.lookup_modify_self] at hq
    by_cases hk1 : pid = k₁
    · subst hk1
      rw [Dict.lookup_modify_self, hp] at hq
      cases hq
      have : p.score ≤ p.score + c₁ := Int.le_add_of_nonneg_right h₁
      calc p.score ≤ p.score + c₁ := this
        _ ≤ p.score + c₁ + c₂ := Int.le_add_of_nonneg_right h₂
    · rw [Dict.lookup_modify_ne k₁ pid _ _ hk1, hp] at hq
      cases hq
      exact Int.le_add_of_nonneg_right h₂
  · rw [Dict.lookup_modify_ne k₂ pid _ _ hk2] at hq
    exact score_nondecreasing_modify_add l k₁ c₁ h₁ pid p q hp hq

/-- Helper: inserting a fresh key never lowers any existing score. -/
theorem score_nondecreasing_insert_new (l : List (String × PlayerState))
    (k : String) (v : PlayerState) (h : Dict.contains k l = false) :
    score_nondecreasing l (Dict.insert k v l) := by
  intro pid p q hp hq
  by_cases hk : pid = k
  · subst hk
    rw [Dict.contains, hp] at h
    cases h
  · rw [Dict.lookup_insert_ne k pid _ _ hk, hp] at hq
    cases hq
    exact le_refl _

/-- Helper: deleting a key never lowers a surviving score. -/
theorem score_nondecreasing_erase (l : List (String × PlayerState)) (k : String) :
    score_nondecreasing l (Dict.erase k l) := by
  intro pid p q hp hq
  by_cases hk : pid = k
  · subst hk
    rw [Dict.lookup_erase_self] at hq
    cases hq
  · rw [Dict.lookup_erase_ne k pid _ hk, hp] at hq
    cases hq
    exact le_refl _

/-- Helper: `start_round` never touches the player dictionary. -/
theorem start_round_players (room : GameRoom) (shuffle : List String → List String)
    (pick : Option String) (now : ℤ) :
    (start_round room shuffle pick now).1.state.players = room.state.players := by
  simp only [start_round]
  split_ifs <;> rfl

/-- Helper: `start_game` never touches the player dictionary. -/
theorem start_game_players (room : GameRoom) (shuffle : List String → List String)
    (pick : Option String) (now : ℤ) :
    (start_game room shuffle pick now).1.state.players = room.state.players := by
  simp only [start_game]
  split_ifs <;> rfl

/-- Helper: `next_round` never touches the player dictionary. -/
theorem next_round_players (room : GameRoom) (shuffle : List String → List String)
    (pick : Option String) (now : ℤ) :
    (next_round room shuffle pick now).1.state.players = room.state.players := by
  simp only [next_round]
  split_ifs <;> first | rfl | rw [start_round_players]

/-- C9.  Every room operation leaves the score of each player still present
unchanged or increased: only `submit_guess` ever changes a score, and it
only adds the non-negative tier amount and its non-negative half. -/
theorem scores_monotone_spec :
    (∀ (room : GameRoom) (shuffle : List String → List String) (pid name : String),
      score_nondecreasing room.state.players
        (add_player room shuffle pid name).1.state.players) ∧
    (∀ (room : GameRoom) (shuffle : List String → List String) (pid : String),
      score_nondecreasing room.state.players
        (remove_player room shuffle pid).state.players) ∧
    (∀ (room : GameRoom) (shuffle : List String → List String)
        (pick : Option String) (now : ℤ),
      score_nondecreasing room.state.players
        (start_game room shuffle pick now).1.state.players) ∧
    (∀ (room : GameRoom) (shuffle : List String → List String)
        (pick : Option String) (now : ℤ),
      score_nondecreasing room.state.players
        (start_round room shuffle pick now).1.state.players) ∧
    (∀ (room : GameRoom) (pid text : String) (now : ℤ),
      score_nondecreasing room.state.players
        (submit_guess room pid text now).1.state.players) ∧
    (∀ (room : GameRoom) (shuffle : List String → List String)
        (pick : Option String) (now : ℤ),
      score_nondecreasing room.state.players
        (next_round room shuffle pick now).1.state.players) ∧
    (∀ room : GameRoom,
      score_nondecreasing room.state.players (end_game room).state.players) := by
  refine ⟨?_, ?_, ?_, ?_, ?_, ?_, ?_⟩
  · intro room shuffle pid name
    simp only [add_player]
    split_ifs with h1 h2
    · exact score_nondecreasing_refl _
    · exact score_nondecreasing_refl _
    · exact score_nondecreasing_insert_new _ pid _ (by simpa using h1)
  · intro room shuffle pid
    simp only [remove_player]
    split_ifs with h1 h2
    · exact score_nondecreasing_erase _ pid
    · exact score_nondecreasing_erase _ pid
    · exact score_nondecreasing_refl _
  · intro room shuffle pick now
    rw [start_game_players]
    exact score_nondecreasing_refl _
  · intro room shuffle pick now
    rw [start_round_players]
    exact score_nondecreasing_refl _
  · intro room pid text now
    simp only [submit_guess]
    split_ifs with h1 h2 h3 h4 h5
    · exact score_nondecreasing_refl _
    · exact score_nondecreasing_refl _
    · exact score_nondecreasing_refl _
    · exact score_nondecreasing_refl _
    · -- accepted guess: one or two score additions
      rcases hdw : room.state.current_round.drawer_id with _ | d
      · simp only [hdw]
        exact score_nondecreasing_modify_add _ pid _
          (score_for_first_solver_nonneg _ _)
      · simp only [hdw]
        split_ifs with hb
        · exact score_nondecreasing_modify_add₂ _ pid d _ _
            (score_for_first_solver_nonneg _ _)
            (Int.ediv_nonneg (score_for_first_solver_nonneg _ _) (by norm_num))
        · exact score_nondecreasing_modify_add _ pid _
            (score_for_first_solver_nonneg _ _)
    · exact score_nondecreasing_refl _
  · intro room shuffle pick now
    rw [next_round_players]
    exact score_nondecreasing_refl _
  · intro room
    exact score_nondecreasing_refl _

/-- C9 witness: the concrete accepted guess on the sample room raises Bob
from 0 to 10 and Alice from 0 to 5, lowering nothing. -/
theorem scores_monotone_spec_witness :
    score_nondecreasing sampleRoom.state.players
      (submit_guess sampleRoom "b" "apple" 0).1.state.players :=
  scores_monotone_spec.2.2.2.2.1 sampleRoom "b" "apple" 0

/-! ### C4: round-robin drawer rotation -/

/-- Helper: with the game started and a non-empty rotation queue,
`start_round` pops the head as drawer, appends it to the tail, and
succeeds. -/
theorem start_round_cons (room : GameRoom) (shuffle : List String → List String)
    (pick : Option String) (now : ℤ) (a : String) (rest : List String)
    (hstart : room.state.is_started = true)
    (hcycle : room.drawer_cycle = a :: rest) :
    start_round room shuffle pick now =
      ({ room with
          state := { room.state with
              current_round :=
                { round_index := room.state.rounds_played + 1
                  drawer_id := some a
                  word := pick
                  start_ts := some now
                  guesses := []
                  solved_by := none
                  is_active := true } },
          drawer_cycle := rest ++ [a] }, true) := by
  simp only [start_round, hstart, hcycle]
  rfl

/-- Helper: consuming a prefix `pending` of the rotation queue (the rest
being `served`) makes each id of `pending` the drawer once, in order, every
call succeeding. -/
theorem startRounds_rotation (pending : List String) :
    ∀ (served : List String) (room : GameRoom) (shuffle : List String → List String)
      (picks : Nat → Option String) (times : Nat → ℤ),
      room.state.is_started = true →
      room.drawer_cycle = pending ++ served →
      startRounds room shuffle picks times pending.length =
        pending.map (fun pid => (some pid, true)) := by
  induction pending with
  | nil => intro served room shuffle picks times hstart hcycle; rfl
  | cons a t ih =>
    intro served room shuffle picks times hstart hcycle
    have hcons : room.drawer_cycle = a :: (t ++ served) := by
      simpa using hcycle
    have hstep := start_round_cons room shuffle (picks 0) (times 0) a (t ++ served)
      hstart hcons
    have h1 := congrArg Prod.fst hstep
    have h2 := congrArg Prod.snd hstep
    show ((start_round room shuffle (picks 0) (times 0)).1.state.current_round.drawer_id,
        (start_round room shuffle (picks 0) (times 0)).2) ::
        startRounds (start_round room shuffle (picks 0) (times 0)).1 shuffle
          (fun i => picks (i + 1)) (fun i => times (i + 1)) t.length =
      (some a, true) :: t.map (fun pid => (some pid, true))
    rw [h1, h2]
    refine congrArg₂ List.cons rfl ?_
    exact ih (served ++ [a]) _ shuffle (fun i => picks (i + 1)) (fun i => times (i + 1))
      hstart (by simp)

/-- C4.  In a started room whose rotation queue is a permutation of the
player-id list (with `N` players and no duplicate ids), `N` consecutive
`start_round` calls all succeed and make every player id the drawer exactly
once — the queue is consumed head-first, each popped id re-appended at the
tail. -/
theorem round_robin_fairness (room : GameRoom) (shuffle : List String → List String)
    (picks : Nat → Option String) (times : Nat → ℤ)
    (hstart : room.state.is_started = true)
    (hnodup : (Dict.keys room.state.players).Nodup)
    (hperm : room.drawer_cycle.Perm (Dict.keys room.state.players)) :
    startRounds room shuffle picks times (Dict.keys room.state.players).length =
      room.drawer_cycle.map (fun pid => (some pid, true)) ∧
    ((startRounds room shuffle picks times
        (Dict.keys room.state.players).length).map Prod.fst).Nodup ∧
    ∀ pid ∈ Dict.keys room.state.players,
      some pid ∈ (startRounds room shuffle picks times
        (Dict.keys room.state.players).length).map Prod.fst := by
  have hlen : (Dict.keys room.state.players).length = room.drawer_cycle.length :=
    (hperm.length_eq).symm
  have hmain : startRounds room shuffle picks times
      (Dict.keys room.state.players).length =
      room.drawer_cycle.map (fun pid => (some pid, true)) := by
    rw [hlen]
    exact startRounds_rotation room.drawer_cycle [] room shuffle picks times hstart
      (by simp)
  have hcnodup : room.drawer_cycle.Nodup := hperm.nodup_iff.mpr hnodup
  have hmapfst : (room.drawer_cycle.map fun pid => ((some pid : Option String), true)).map
      Prod.fst = room.drawer_cycle.map some := by
    simp
  refine ⟨hmain, ?_, ?_⟩
  · rw [hmain, hmapfst]
    exact hcnodup.map (fun a b hab => Option.some.inj hab)
  · intro pid hpid
    have hcmem : pid ∈ room.drawer_cycle := hperm.mem_iff.mpr hpid
    rw [hmain, hmapfst]
    exact List.mem_map_of_mem some hcmem

/-- C4 witness: in the sample room (rotation `["b", "a"]` over players
`a`, `b`) two consecutive rounds draw `b` then `a`, each exactly once. -/
theorem round_robin_fairness_witness :
    startRounds sampleRoom id (fun _ => some "apple") (fun _ => 0)
        (Dict.keys sampleRoom.state.players).length =
      sampleRoom.drawer_cycle.map (fun pid => (some pid, true)) ∧
    ((startRounds sampleRoom id (fun _ => some "apple") (fun _ => 0)
        (Dict.keys sampleRoom.state.players).length).map Prod.fst).Nodup ∧
    ∀ pid ∈ Dict.keys sampleRoom.state.players,
      some pid ∈ (startRounds sampleRoom id (fun _ => some "apple") (fun _ => 0)
        (Dict.keys sampleRoom.state.players).length).map Prod.fst :=
  round_robin_fairness sampleRoom id (fun _ => some "apple") (fun _ => 0)
    (by decide) (by decide) (by decide)

/-! ### C8: the public snapshot withholds the secret word -/

/-- C8.  The public snapshot consists of exactly the room id, started flag,
round index, drawer id, seconds remaining, the id-to-name-and-score player
mapping and the solved flag — and not the word: rooms differing only in the
current round's word produce identical snapshots. -/
theorem get_public_state_spec (room : GameRoom) (w w' : Option String) (now : ℤ) :
    get_public_state (set_round_word room w) now =
      get_public_state (set_round_word room w') now ∧
    get_public_state room now =
      { room_id := room.room_id
        is_started := room.state.is_started
        round_index := room.state.current_round.round_index
        drawer_id := room.state.current_round.drawer_id
        time_left := room.state.current_round.time_left now
        players := room.state.players.map (fun e => (e.1, e.2.name, e.2.score))
        solved := truthyOptStr room.state.current_round.solved_by } :=
  ⟨rfl, rfl⟩

/-! ### C7: decode failures -/

/-- C7 counterexample: a JSON object whose `type` value is the number 5 —
not a string — decodes successfully to a `Message` (the code never checks
the type of `type`, and no `ProtocolError` exists in the repository), while
the claim demands a failure on every non-string `type`. -/
theorem from_json_nonstring_type_counterexample :
    decodeLine (some (Json.obj [("type", Json.num 5)])) =
      Except.ok { type := Json.num 5, data := Json.obj [] } := rfl

/-- C7 amended: decoding fails exactly when the bytes are not valid JSON or
the top-level value is not an object with a `type` key; the `type` value
itself is never inspected.  The failures are the propagated
`json.JSONDecodeError` / `TypeError` / `KeyError`, not a `ProtocolError`
(none exists in the repository). -/
theorem decodeLine_failure_spec (oj : Option Json) :
    ((∃ m, decodeLine oj = Except.ok m) ↔ wellFormedEnvelope oj = true) ∧
    (decodeLine oj = Except.error PyError.jsonDecodeError ↔ oj = none) ∧
    (∀ j, oj = some j →
      (decodeLine oj = Except.error PyError.typeError ↔
        ∀ entries, j ≠ Json.obj entries)) ∧
    (∀ entries, oj = some (Json.obj entries) →
      (decodeLine oj = Except.error PyError.keyError ↔
        Dict.lookup "type" entries = none)) := by
  refine ⟨?_, ?_, ?_, ?_⟩
  · cases oj with
    | none => simp [decodeLine, wellFormedEnvelope]
    | some j =>
      cases j <;> simp [decodeLine, Message.from_json, wellFormedEnvelope]
      rename_i entries
      cases h : Dict.lookup "type" entries <;> simp [h]
  · cases oj with
    | none => simp [decodeLine]
    | some j =>
      cases j <;> simp [decodeLine, Message.from_json]
      rename_i entries
      cases h : Dict.lookup "type" entries <;> simp [h]
  · intro j hj
    subst hj
    cases j <;> simp [decodeLine, Message.from_json]
    rename_i entries
    cases h : Dict.lookup "type" entries <;> simp [h]
  · intro entries hj
    subst hj
    cases h : Dict.lookup "type" entries <;>
      simp [decodeLine, Message.from_json, h]

/-- C7 amended witness: a well-formed envelope decodes successfully; the
empty object fails with `KeyError`; a bare number fails with `TypeError`;
unparseable bytes fail with `JSONDecodeError`. -/
theorem decodeLine_failure_spec_witness :
    (∃ m, decodeLine (some (Json.obj [("type", Json.str "chat")])) = Except.ok m) ∧
    decodeLine (some (Json.obj [])) = Except.error PyError.keyError ∧
    decodeLine (some (Json.num 3)) = Except.error PyError.typeError ∧
    decodeLine none = Except.error PyError.jsonDecodeError := by
  refine ⟨?_, ?_, ?_, ?_⟩
  · exact (decodeLine_failure_spec (some (Json.obj [("type", Json.str "chat")]))).1.mpr rfl
  · exact ((decodeLine_failure_spec (some (Json.obj []))).2.2.2 [] rfl).mpr rfl
  · exact ((decodeLine_failure_spec (some (Json.num 3))).2.2.1 (Json.num 3) rfl).mpr
      (by intro entries h; cases h)
  · exact (decodeLine_failure_spec none).2.1.mpr rfl

/-! ### C6: framing and codec round-trip -/

/-- Helper: a buffer without a newline yields no frame and stays buffered. -/
theorem splitFrames_no_newline (l : List Char) (h : '\n' ∉ l) :
    splitFrames l = ([], l) := by
  induction l with
  | nil => rfl
  | cons c l' ih =>
    have hc : ¬ (c = '\n') := fun hcc => h (hcc ▸ List.mem_cons_self c l')
    have h' : '\n' ∉ l' := fun hm => h (List.mem_cons_of_mem c hm)
    simp [splitFrames, hc, ih h']

/-- Helper: the trailing buffer left by the splitter never contains a
newline. -/
theorem splitFrames_leftover_no_newline (l : List Char) :
    '\n' ∉ (splitFrames l).2 := by
  induction l with
  | nil => simp [splitFrames]
  | cons c l' ih =>
    by_cases hc : c = '\n'
    · simpa [splitFrames, hc] using ih
    · cases h1 : (splitFrames l').1 with
      | cons f fs => simpa [splitFrames, hc, h1] using ih
      | nil =>
        simp [splitFrames, hc, h1]
        refine ⟨fun hcc => hc hcc.symm, ?_⟩
        intro hm
        exact ih hm

/-- Helper: splitting a concatenation processes the first part, then the
leftover prefixed to the second part. -/
theorem splitFrames_append (x y : List Char) :
    splitFrames (x ++ y) =
      ((splitFrames x).1 ++ (splitFrames ((splitFrames x).2 ++ y)).1,
       (splitFrames ((splitFrames x).2 ++ y)).2) := by
  induction x with
  | nil => simp [splitFrames]
  | cons c x' ih =>
    by_cases hc : c = '\n'
    · subst hc
      simp [splitFrames, ih]
    · cases h1 : (splitFrames x').1 with
      | cons f fs =>
        simp [splitFrames, hc, ih, h1]
      | nil =>
        cases h2 : (splitFrames ((splitFrames x').2 ++ y)).1 with
        | cons g gs => simp [splitFrames, hc, ih, h1, h2]
        | nil => simp [splitFrames, hc, ih, h1, h2]

/-- Helper: feeding the read loop chunk by chunk is the same as splitting
the whole stream at once, for any newline-free carried buffer. -/
theorem feedChunks_eq (chunks : List (List Char)) :
    ∀ buf : List Char, '\n' ∉ buf →
      feedChunks buf chunks = splitFrames (buf ++ chunks.flatten) := by
  induction chunks with
  | nil =>
    intro buf hbuf
    simp [feedChunks, splitFrames_no_newline buf hbuf]
  | cons c cs ih =>
    intro buf hbuf
    show ((splitFrames (buf ++ c)).1 ++ (feedChunks (splitFrames (buf ++ c)).2 cs).1,
        (feedChunks (splitFrames (buf ++ c)).2 cs).2) = _
    rw [ih (splitFrames (buf ++ c)).2 (splitFrames_leftover_no_newline (buf ++ c))]
    have : buf ++ (c :: cs).flatten = (buf ++ c) ++ cs.flatten := by simp
    rw [this, splitFrames_append (buf ++ c) cs.flatten]

/-- C6.  At the level of parsed JSON values, decoding an encoded message
recovers an equal type/data pair; an object without a `data` key decodes to
the empty mapping; an encoded line followed by its newline separator is
recovered intact as one frame; and however the byte stream is split into
successive reads, the reassembling read loop produces exactly the frames of
the whole stream. -/
theorem codec_framing_roundtrip :
    (∀ (t : Json) (d : Option Json),
      Message.from_json ((Message.mkPy t d).to_json) = Except.ok (Message.mkPy t d)) ∧
    (∀ t : Json,
      Message.from_json (Json.obj [("type", t)]) =
        Except.ok { type := t, data := Json.obj [] }) ∧
    (∀ (line rest : List Char), '\n' ∉ line →
      splitFrames (line ++ '\n' :: rest) =
        (line :: (splitFrames rest).1, (splitFrames rest).2)) ∧
    (∀ chunks : List (List Char), feedChunks [] chunks = splitFrames chunks.flatten) := by
  refine ⟨?_, ?_, ?_, ?_⟩
  · intro t d
    cases d with
    | none =>
      simp [Message.mkPy, Message.to_json, Message.from_json, Dict.lookup, Json.isTruthy]
    | some dj =>
      by_cases hdj : dj.isTruthy = true
      · simp [Message.mkPy, Message.to_json, Message.from_json, Dict.lookup, hdj]
      · have hdj' := hdj
        simp only [Json.isTruthy] at hdj'
        simp [Message.mkPy, Message.to_json, Message.from_json, Dict.lookup, hdj',
          Json.isTruthy]
  · intro t
    simp [Message.mkPy, Message.from_json, Dict.lookup]
  · intro line rest h
    induction line with
    | nil => simp [splitFrames]
    | cons c l' ih =>
      have hc : ¬ (c = '\n') := fun hcc => h (hcc ▸ List.mem_cons_self c l')
      have h' : '\n' ∉ l' := fun hm => h (List.mem_cons_of_mem c hm)
      simp [splitFrames, hc, ih h']
  · intro chunks
    exact feedChunks_eq chunks [] (by simp)

/-- C6 witness: the two-character line `hi` followed by a newline and a
partial byte is reassembled into one frame `hi` with `x` left buffered. -/
theorem codec_framing_roundtrip_witness :
    ('\n' ∉ ['h', 'i']) ∧
    splitFrames (['h', 'i'] ++ '\n' :: ['x']) =
      (['h', 'i'] :: (splitFrames ['x']).1, (splitFrames ['x']).2) :=
  ⟨by decide, codec_framing_roundtrip.2.2.1 ['h', 'i'] ['x'] (by decide)⟩

end DrawGuess
